import Mathlib

/-!
# Verification of the yanm network monitor

A shallow embedding of the yanm repository's core (the speed-test client in
`internal/network/speedtest.go`, the monitor scheduler and its limiters in
`internal/monitor/debug.go`, and the debug control handler), together with
theorems settling the behavioural claims about it.

Conventions of the embedding:
* Go `time.Duration` and `time.Time` values are modelled as `Nat`
  (nanoseconds); `float64` speeds, coordinates and rate limits as `Rat`.
* Go slices of results are modelled as Lean lists, most-recent first, exactly
  as the code keeps them.
* Fallible Go functions returning `(T, error)` are modelled as functions
  into `Except e T`; errors keep their structure (wrapping is a constructor).
* External collaborators (the speedtest-go library, `golang.org/x/time/rate`)
  enter as explicit parameters describing the outcome of each external call,
  or as faithful models of their documented semantics at a fixed instant.
-/

namespace Yanm

/-- Geographic location attached to a speedtest server
(`Geo{Lat, Lon}` in `internal/network/speedtest.go`). -/
structure Geo where
  lat : Rat
  lon : Rat
  deriving DecidableEq, Repr

/-- `PingResult` from `internal/network/interface.go`: the result of a
latency probe. `timestamp` is nanoseconds, `latency` a duration in
nanoseconds. -/
structure PingResult where
  targetName : String
  timestamp : Nat
  latency : Nat
  geo : Geo
  deriving DecidableEq, Repr

/-- The Go zero value `PingResult{}` allocated at the top of
`PerformPingTest` (`result := &PingResult{}`). -/
def PingResult.zero : PingResult :=
  { targetName := "", timestamp := 0, latency := 0, geo := { lat := 0, lon := 0 } }

/-- `PerformanceResult` produced by `PerformSpeedTest`: throughput probe
result with download/upload rates in Mbps. -/
structure PerformanceResult where
  targetName : String
  timestamp : Nat
  downloadSpeedMbps : Rat
  uploadSpeedMbps : Rat
  pingLatency : Nat
  geo : Geo
  deriving DecidableEq, Repr

/-- A speedtest server as selected from the fetched server list
(the fields of `speedtest.Server` the client reads). -/
structure Server where
  name : String
  lat : Rat
  lon : Rat
  deriving DecidableEq, Repr

/-- `maxHistory` constant from `internal/network/speedtest.go`. -/
def maxHistory : Nat := 10

/-- The mutable history state of `SpeedTestClient`: the two result slices
guarded by its `sync.RWMutex`, most-recent first. -/
structure ClientState where
  lastNetworkResults : List PerformanceResult
  lastPingResults : List PingResult
  deriving DecidableEq, Repr

/-- The client state at construction (`NewSpeedTestClient`): both histories
are nil slices. -/
def ClientState.init : ClientState :=
  { lastNetworkResults := [], lastPingResults := [] }

/-- Errors of the ping probe operation, mirroring the `error` returns of
`PerformPingTest` (each `fmt.Errorf` wrapping is a constructor keeping the
wrapped cause). -/
inductive PingErr where
  | fetchFailed (cause : String)
  | noServers (cause : String)
  | noTarget
  | pingFailed (cause : String)
  deriving DecidableEq, Repr

/-- Errors of the throughput probe operation, mirroring the `error` returns
of `PerformSpeedTest`. `testsFailed` wraps the aggregated (`multierr`) list
of sub-measurement failure messages produced by `performTests`. -/
inductive SpeedErr where
  | fetchFailed (cause : String)
  | noServers (cause : String)
  | noTarget
  | testsFailed (errs : List String)
  deriving DecidableEq, Repr

/-- Outcome of the external calls made during one `PerformPingTest`
invocation: the speedtest-go server-list fetch/selection, the wall clock,
and the ping measurement itself (`target.PingTestContext`). -/
structure PingEnv where
  /-- Outcome of `s.st.FetchServerListContext(ctx)` followed by
  `serverList.Available().FindServer([]int{})`: either an error message at
  one of the two steps, or the list of candidate servers. -/
  fetchErr : Option String
  findErr : Option String
  targets : List Server
  /-- Outcome of `target.PingTestContext`: `none` means success with the
  measured latency `pingLatency`; `some e` means the ping failed with `e`
  (and the latency callback was not invoked). -/
  pingErr : Option String
  pingLatency : Nat
  /-- `s.clock.Now()` as observed inside the latency callback. -/
  now : Nat
  deriving DecidableEq, Repr

/-- `PerformPingTest` from `internal/network/speedtest.go`, as a function of
the external-call outcomes and the client's history state.

Control flow mirrors the source: fetch the server list, select a target,
then under the write lock prepend the freshly allocated zero `result` to
`lastPingResults` (truncating to `maxHistory`) *before* running
`target.PingTestContext`; the ping's callback fills in the very cell that
was prepended, so on success the head of the history is the filled result,
while on ping failure the zero-valued cell stays in the history and the
error is returned. -/
def performPingTest (env : PingEnv) (s : ClientState) :
    Except PingErr PingResult × ClientState :=
  match env.fetchErr with
  | some e => (.error (.fetchFailed e), s)
  | none =>
    match env.findErr with
    | some e => (.error (.noServers e), s)
    | none =>
      match env.targets with
      | [] => (.error .noTarget, s)
      | target :: _ =>
        -- s.mu.Lock(); defer s.mu.Unlock()
        match env.pingErr with
        | some e =>
          -- the zero result was already prepended when the ping fails
          (.error (.pingFailed e),
           { s with lastPingResults :=
               (PingResult.zero :: s.lastPingResults).take maxHistory })
        | none =>
          let result : PingResult :=
            { targetName := target.name
              timestamp := env.now
              latency := env.pingLatency
              geo := { lat := target.lat, lon := target.lon } }
          (.ok result,
           { s with lastPingResults :=
               (result :: s.lastPingResults).take maxHistory })

/-- `performTests` from `internal/network/speedtest.go`: runs the download
and upload measurements in two goroutines, collecting failures with
`multierr` under a mutex. `dlErr`/`ulErr` are the outcomes of
`target.DownloadTestContext` / `target.UploadTestContext`; `dlFirst` is the
scheduling order in which the two goroutines reach the error mutex (either
interleaving can happen). The result is the aggregated error as its list of
messages, `[]` standing for a `nil` error. -/
def performTests (dlErr ulErr : Option String) (dlFirst : Bool) : List String :=
  let dl := (dlErr.map (fun e => "download test failed: " ++ e)).toList
  let ul := (ulErr.map (fun e => "upload test failed: " ++ e)).toList
  if dlFirst then dl ++ ul else ul ++ dl

/-- Outcome of the external calls made during one `PerformSpeedTest`
invocation. -/
structure SpeedEnv where
  fetchErr : Option String
  findErr : Option String
  targets : List Server
  /-- Outcome of `target.DownloadTestContext` (`none` = success). -/
  dlErr : Option String
  /-- Outcome of `target.UploadTestContext` (`none` = success). -/
  ulErr : Option String
  /-- Which failing goroutine appends to the `multierr` first. -/
  dlFirst : Bool
  /-- Measured rates and latency read off the server after the tests. -/
  dlMbps : Rat
  ulMbps : Rat
  latency : Nat
  /-- `s.clock.Now()` when building the `PerformanceResult`. -/
  now : Nat
  deriving DecidableEq, Repr

/-- `PerformSpeedTest` from `internal/network/speedtest.go`: fetches and
selects a server, then under the write lock runs `performTests`; if that
fails the aggregated error is returned (wrapped) and the history is left
untouched, otherwise the `PerformanceResult` is prepended to
`lastNetworkResults`, truncating to `maxHistory`. -/
def performSpeedTest (env : SpeedEnv) (s : ClientState) :
    Except SpeedErr PerformanceResult × ClientState :=
  match env.fetchErr with
  | some e => (.error (.fetchFailed e), s)
  | none =>
    match env.findErr with
    | some e => (.error (.noServers e), s)
    | none =>
      match env.targets with
      | [] => (.error .noTarget, s)
      | target :: _ =>
        -- s.mu.Lock(); defer s.mu.Unlock()
        match performTests env.dlErr env.ulErr env.dlFirst with
        | _ :: _ =>
          (.error (.testsFailed (performTests env.dlErr env.ulErr env.dlFirst)), s)
        | [] =>
          let performance : PerformanceResult :=
            { targetName := target.name
              timestamp := env.now
              downloadSpeedMbps := env.dlMbps
              uploadSpeedMbps := env.ulMbps
              pingLatency := env.latency
              geo := { lat := target.lat, lon := target.lon } }
          (.ok performance,
           { s with lastNetworkResults :=
               (performance :: s.lastNetworkResults).take maxHistory })

/-- `getPageData` from `internal/network/speedtest_debug.go`: the
introspection snapshot, returning copies of the two histories under the
read lock (copying is the identity at the value level). -/
def getPageData (s : ClientState) : List PingResult × List PerformanceResult :=
  (s.lastPingResults, s.lastNetworkResults)

/-! ## The monitor scheduler (`internal/monitor/debug.go`) -/

/-- `rate.Limit` from `golang.org/x/time/rate`: either the infinite limit or
a finite events-per-second rate (a `float64` in Go, a `Rat` here). -/
inductive RateLimit where
  | inf
  | finite (r : Rat)
  deriving DecidableEq, Repr

/-- `rate.Every(interval)`: `Inf` for a non-positive interval, else
`1 / interval.Seconds()` events per second. `intervalNs` is nanoseconds. -/
def rateEvery (intervalNs : Nat) : RateLimit :=
  if intervalNs = 0 then .inf else .finite (1000000000 / (intervalNs : Rat))

/-- `_burstPing` constant from `internal/monitor/debug.go`. -/
def burstPing : Nat := 1

/-- `_burstNetwork` constant from `internal/monitor/debug.go`. -/
def burstNetwork : Nat := 3

/-- `trackingLimiter`: the embedded `rate.Limiter` state observed at a fixed
instant (limit, burst and the whole tokens currently in the bucket), plus
the `originalLimit` remembered for resume. Token replenishment between
instants is not modelled; `allow` below captures one `Allow()` call's effect
on the bucket, following `x/time/rate` reserveN semantics (the `limit == 0`
special case draws from the burst pool). -/
structure TrackingLimiter where
  limit : RateLimit
  burst : Nat
  tokens : Nat
  originalLimit : RateLimit
  deriving DecidableEq, Repr

/-- `rate.NewLimiter(limit, burst)` wrapped as a `trackingLimiter`, as built
in `NewNetwork`; the bucket starts full. -/
def TrackingLimiter.mk0 (limit : RateLimit) (burst : Nat) : TrackingLimiter :=
  { limit := limit, burst := burst, tokens := burst, originalLimit := limit }

/-- `Limiter.Allow()` of `x/time/rate` at a fixed instant: returns whether
the event may happen now and the limiter afterwards. With an infinite limit
it always allows without consuming; with limit zero it consumes from the
burst pool; otherwise it consumes a token when one is available and is
denied (consuming nothing) when none is. -/
def TrackingLimiter.allow (l : TrackingLimiter) : Bool × TrackingLimiter :=
  match l.limit with
  | .inf => (true, l)
  | .finite r =>
    if r = 0 then
      if 1 ≤ l.burst then (true, { l with burst := l.burst - 1 })
      else (false, l)
    else
      if 1 ≤ l.tokens then (true, { l with tokens := l.tokens - 1 })
      else (false, l)

/-- `trackingLimiter.Status()`: `"Paused"` for limit 0, `"Unlimited"` for
`rate.Inf`, else the current limit and burst rendered as `"<rate> / <burst>"`
(the exact `fmt` float rendering is abstracted by `toString`). -/
def TrackingLimiter.status (l : TrackingLimiter) : String :=
  match l.limit with
  | .finite 0 => "Paused"
  | .inf => "Unlimited"
  | .finite r => toString r ++ " / " ++ toString l.burst

/-- The scheduler state of `monitor.Network`: the two tracking limiters and
the capacity-1 trigger channel (`triggerNetworkCheck`), whose state is the
number of buffered notifications. -/
structure NetworkMonitor where
  pingLimiter : TrackingLimiter
  networkLimiter : TrackingLimiter
  triggerPending : Nat
  deriving DecidableEq, Repr

/-- `NewNetwork` with the given ping/network intervals (nanoseconds): both
limiters are built from `rate.Every` of their interval with their burst
constants, and the trigger channel is created empty with capacity 1. -/
def newNetwork (pingIntervalNs networkIntervalNs : Nat) : NetworkMonitor :=
  { pingLimiter := TrackingLimiter.mk0 (rateEvery pingIntervalNs) burstPing
    networkLimiter := TrackingLimiter.mk0 (rateEvery networkIntervalNs) burstNetwork
    triggerPending := 0 }

/-- `PausePing`: `SetLimit(0); SetBurst(0)` on the ping limiter. -/
def pausePing (m : NetworkMonitor) : NetworkMonitor :=
  { m with pingLimiter := { m.pingLimiter with limit := .finite 0, burst := 0 } }

/-- `ResumePing`: restore the ping limiter's limit to `originalLimit` and
its burst to `_burstPing`. -/
def resumePing (m : NetworkMonitor) : NetworkMonitor :=
  { m with pingLimiter :=
      { m.pingLimiter with limit := m.pingLimiter.originalLimit, burst := burstPing } }

/-- `PauseNetwork`: `SetLimit(0); SetBurst(0)` on the network limiter. -/
def pauseNetwork (m : NetworkMonitor) : NetworkMonitor :=
  { m with networkLimiter := { m.networkLimiter with limit := .finite 0, burst := 0 } }

/-- `ResumeNetwork`: restore the network limiter's limit to `originalLimit`
and its burst to `_burstNetwork`. -/
def resumeNetwork (m : NetworkMonitor) : NetworkMonitor :=
  { m with networkLimiter :=
      { m.networkLimiter with limit := m.networkLimiter.originalLimit, burst := burstNetwork } }

/-- `triggerNetwork`: non-blocking send on the capacity-1 buffered channel
`triggerNetworkCheck` — the `select` with a `default` branch buffers the
notification when the channel has room and drops it otherwise (logging).
Returns the channel afterwards and whether the send was buffered. -/
def triggerNetwork (pending : Nat) : Nat × Bool :=
  if pending < 1 then (pending + 1, true) else (pending, false)

/-- A receive attempt on the trigger channel: delivers one buffered
notification when present. Returns the channel afterwards and whether a
notification was delivered. -/
def drainTrigger (pending : Nat) : Nat × Bool :=
  if 1 ≤ pending then (pending - 1, true) else (pending, false)

/-- The events that can wake one iteration of the network-check goroutine's
`select` in `run`. -/
inductive NetEvent where
  | cancelled
  | trigger
  | tick
  deriving DecidableEq, Repr

/-- One iteration of the network-check `select` loop in `run`, woken by
`ev`: on cancellation nothing happens; on a trigger delivery or a ticker
tick the branch calls `m.networkLimiter.Allow()` and runs
`performNetworkCheck` only when it returns true, otherwise it just logs and
loops. Returns whether a throughput probe ran and the limiter afterwards. -/
def networkLoopStep (ev : NetEvent) (lim : TrackingLimiter) :
    Bool × TrackingLimiter :=
  match ev with
  | .cancelled => (false, lim)
  | .trigger =>
    let (ok, lim') := lim.allow
    (ok, lim')
  | .tick =>
    let (ok, lim') := lim.allow
    (ok, lim')

/-- A sequence of network-loop iterations: returns the number of throughput
probes that ran and the limiter afterwards. -/
def networkLoopRun (evs : List NetEvent) (lim : TrackingLimiter) :
    Nat × TrackingLimiter :=
  match evs with
  | [] => (0, lim)
  | ev :: rest =>
    let (ran, lim') := networkLoopStep ev lim
    let (n, lim'') := networkLoopRun rest lim'
    ((if ran then 1 else 0) + n, lim'')

/-! ## The debug control handler (`monitorPage.ServeHTTP`, POST branch) -/

/-- The response of the POST branch of `monitorPage.ServeHTTP`: HTTP status
code and body. -/
structure PostResponse where
  status : Nat
  body : String
  deriving DecidableEq, Repr

/-- The POST branch of `monitorPage.ServeHTTP`: dispatch on the form value
`action`, invoking exactly the matching scheduler method and answering 200,
or answering `http.Error(w, "Invalid action", http.StatusBadRequest)`
without touching the monitor. -/
def handlePost (action : String) (m : NetworkMonitor) :
    PostResponse × NetworkMonitor :=
  if action = "pause-ping" then
    ({ status := 200, body := "Ping paused" }, pausePing m)
  else if action = "resume-ping" then
    ({ status := 200, body := "Ping resumed" }, resumePing m)
  else if action = "pause-network" then
    ({ status := 200, body := "Network paused" }, pauseNetwork m)
  else if action = "resume-network" then
    ({ status := 200, body := "Network resumed" }, resumeNetwork m)
  else
    ({ status := 400, body := "Invalid action" }, m)

/-! ## Sequences of probe operations -/

/-- Whether a `PingEnv` describes a fully successful `PerformPingTest`
call (every external step succeeds). -/
def pingSucceeds (env : PingEnv) : Bool :=
  env.fetchErr.isNone && env.findErr.isNone && !env.targets.isEmpty &&
    env.pingErr.isNone

/-- Whether a `SpeedEnv` describes a fully successful `PerformSpeedTest`
call. -/
def speedSucceeds (env : SpeedEnv) : Bool :=
  env.fetchErr.isNone && env.findErr.isNone && !env.targets.isEmpty &&
    env.dlErr.isNone && env.ulErr.isNone

/-- The `PingResult` a successful `PerformPingTest` call produces from its
environment (the head target filled in by the latency callback). -/
def pingResultOf (env : PingEnv) : PingResult :=
  match env.targets with
  | [] => PingResult.zero
  | target :: _ =>
    { targetName := target.name
      timestamp := env.now
      latency := env.pingLatency
      geo := { lat := target.lat, lon := target.lon } }

/-- The `PerformanceResult` a successful `PerformSpeedTest` call produces. -/
def speedResultOf (env : SpeedEnv) : PerformanceResult :=
  match env.targets with
  | [] =>
    { targetName := "", timestamp := 0, downloadSpeedMbps := 0
      uploadSpeedMbps := 0, pingLatency := 0, geo := { lat := 0, lon := 0 } }
  | target :: _ =>
    { targetName := target.name
      timestamp := env.now
      downloadSpeedMbps := env.dlMbps
      uploadSpeedMbps := env.ulMbps
      pingLatency := env.latency
      geo := { lat := target.lat, lon := target.lon } }

/-- One probe operation on the client: a latency probe or a throughput
probe, each carrying the outcomes of its external calls. -/
inductive ProbeOp where
  | ping (env : PingEnv)
  | speed (env : SpeedEnv)
  deriving DecidableEq, Repr

/-- The state transition of one probe operation (the returned value is
dropped; only the history effect matters here). -/
def applyProbe (op : ProbeOp) (s : ClientState) : ClientState :=
  match op with
  | .ping env => (performPingTest env s).2
  | .speed env => (performSpeedTest env s).2

/-- Apply a chronological sequence of probe operations (head first). -/
def applyProbes (ops : List ProbeOp) (s : ClientState) : ClientState :=
  match ops with
  | [] => s
  | op :: rest => applyProbes rest (applyProbe op s)

/-! ## Sequences of monitor control operations -/

/-- The operations that touch a `NetworkMonitor`'s limiters at runtime: the
four pause/resume control methods and an `Allow()` call from either
activity loop. -/
inductive MonOp where
  | pauseP
  | resumeP
  | pauseN
  | resumeN
  | allowP
  | allowN
  deriving DecidableEq, Repr

/-- The state transition of one monitor control operation. -/
def applyMonOp (op : MonOp) (m : NetworkMonitor) : NetworkMonitor :=
  match op with
  | .pauseP => pausePing m
  | .resumeP => resumePing m
  | .pauseN => pauseNetwork m
  | .resumeN => resumeNetwork m
  | .allowP => { m with pingLimiter := m.pingLimiter.allow.2 }
  | .allowN => { m with networkLimiter := m.networkLimiter.allow.2 }

/-- Apply a chronological sequence of monitor control operations. -/
def applyMonOps (ops : List MonOp) (m : NetworkMonitor) : NetworkMonitor :=
  match ops with
  | [] => m
  | op :: rest => applyMonOps rest (applyMonOp op m)

/-- Fold a chronological sequence of channel operations (`true` = a
`triggerNetwork` post, `false` = a receive by the network goroutine) over
the trigger channel, starting from `pending`. -/
def chanApply (ops : List Bool) (pending : Nat) : Nat :=
  match ops with
  | [] => pending
  | op :: rest =>
    chanApply rest (if op then (triggerNetwork pending).1 else (drainTrigger pending).1)

/-! ## Pointer-level model of the ping history

`PerformPingTest` allocates `result := &PingResult{}` and prepends the
*pointer* to `lastPingResults` before the ping runs; the latency callback
then mutates the pointed-to struct in place. To reason about mutation of
results already inserted into the history, this model keeps a heap of
allocated `PingResult` cells (indexed by allocation order) and a history of
cell indices. -/

structure RefState where
  /-- `heap.getD i` is the current field values of the i-th allocated
  `PingResult` cell. -/
  heap : List PingResult
  /-- Cell indices, most-recent first (the `lastPingResults` slice of
  pointers). -/
  history : List Nat
  deriving DecidableEq, Repr

/-- The pointer-level state at construction: nothing allocated. -/
def RefState.init : RefState := { heap := [], history := [] }

/-- The pointer-level state of `PerformPingTest` just after the history
insertion (source lines 118–121): the freshly allocated zero cell has been
prepended, the ping has not yet run. Only meaningful when the call reaches
the insertion (fetch/selection succeeded). -/
def pingInsertPhase (s : RefState) : RefState :=
  { heap := s.heap ++ [PingResult.zero]
    history := (s.heap.length :: s.history).take maxHistory }

/-- The pointer-level transition of one full `PerformPingTest` call:
early failures touch nothing; otherwise the zero cell is allocated and
prepended, and on ping success the latency callback overwrites that same
cell with the measured values. -/
def performPingTestRef (env : PingEnv) (s : RefState) : RefState :=
  match env.fetchErr with
  | some _ => s
  | none =>
    match env.findErr with
    | some _ => s
    | none =>
      match env.targets with
      | [] => s
      | _ :: _ =>
        let mid := pingInsertPhase s
        match env.pingErr with
        | some _ => mid
        | none => { mid with heap := mid.heap.set s.heap.length (pingResultOf env) }

/-- Apply a chronological sequence of ping calls at the pointer level. -/
def applyPingRefs (envs : List PingEnv) (s : RefState) : RefState :=
  match envs with
  | [] => s
  | env :: rest => applyPingRefs rest (performPingTestRef env s)

/-- The introspection snapshot at the pointer level: `getPageData` copies
the slice of pointers, and the debug template then reads each pointed-to
cell's current field values. -/
def refSnapshot (s : RefState) : List PingResult :=
  s.history.map (fun i => s.heap.getD i PingResult.zero)

/-! ## Lock/probe event traces

To settle where the client's `sync.RWMutex` is held relative to the
network-bound probe calls, each operation is given its trace of atomic
events in source order. -/

inductive LockEv where
  | acquireWrite
  | releaseWrite
  | acquireRead
  | releaseRead
  | probePing
  | probeDownload
  | probeUpload
  | fetchServers
  deriving DecidableEq, Repr

/-- The event trace of one `PerformPingTest` call: the server-list fetch
happens first; if the call reaches line 108 it takes the write lock, runs
`target.PingTestContext` while holding it, and releases it on return (the
deferred unlock). -/
def pingTestTrace (env : PingEnv) : List LockEv :=
  match env.fetchErr with
  | some _ => [.fetchServers]
  | none =>
    match env.findErr with
    | some _ => [.fetchServers]
    | none =>
      match env.targets with
      | [] => [.fetchServers]
      | _ :: _ => [.fetchServers, .acquireWrite, .probePing, .releaseWrite]

/-- The event trace of one `PerformSpeedTest` call: the write lock is taken
at line 64 and `performTests` runs the download and upload measurements
while it is held. -/
def speedTestTrace (env : SpeedEnv) : List LockEv :=
  match env.fetchErr with
  | some _ => [.fetchServers]
  | none =>
    match env.findErr with
    | some _ => [.fetchServers]
    | none =>
      match env.targets with
      | [] => [.fetchServers]
      | _ :: _ =>
        [.fetchServers, .acquireWrite, .probeDownload, .probeUpload, .releaseWrite]

/-- The event trace of `getPageData`: the read lock is taken and released
around pure slice copying; no probe call occurs. -/
def pageDataTrace : List LockEv := [.acquireRead, .releaseRead]

/-- Whether `e` is a network probe call in the sense of the concurrency
policy (ping, download or upload measurement). -/
def LockEv.isProbe (e : LockEv) : Bool :=
  match e with
  | .probePing => true
  | .probeDownload => true
  | .probeUpload => true
  | _ => false

/-- Scan a trace with the current number of locks held (read or write
alike): `true` when some probe event executes while at least one lock is
held. -/
def probeWhileLocked (tr : List LockEv) (held : Nat) : Bool :=
  match tr with
  | [] => false
  | e :: rest =>
    match e with
    | .acquireWrite => probeWhileLocked rest (held + 1)
    | .releaseWrite => probeWhileLocked rest (held - 1)
    | .acquireRead => probeWhileLocked rest (held + 1)
    | .releaseRead => probeWhileLocked rest (held - 1)
    | _ => (e.isProbe && decide (0 < held)) || probeWhileLocked rest held

/-! ## Concrete environments used in counterexamples and witnesses -/

/-- A fully successful ping-probe environment. -/
def envPingOk : PingEnv :=
  { fetchErr := none, findErr := none
    targets := [{ name := "srv-a", lat := 1, lon := 2 }]
    pingErr := none, pingLatency := 5000000, now := 111 }

/-- A ping-probe environment whose server fetch and selection succeed but
whose ping measurement fails. -/
def envPingFail : PingEnv :=
  { fetchErr := none, findErr := none
    targets := [{ name := "srv-a", lat := 1, lon := 2 }]
    pingErr := some "ping timeout", pingLatency := 0, now := 0 }

/-- A fully successful throughput-probe environment. -/
def envSpeedOk : SpeedEnv :=
  { fetchErr := none, findErr := none
    targets := [{ name := "srv-a", lat := 1, lon := 2 }]
    dlErr := none, ulErr := none, dlFirst := true
    dlMbps := 100, ulMbps := 20, latency := 12000000, now := 222 }

/-- A throughput-probe environment whose download sub-measurement fails
while the upload succeeds. -/
def envSpeedDlFail : SpeedEnv :=
  { fetchErr := none, findErr := none
    targets := [{ name := "srv-a", lat := 1, lon := 2 }]
    dlErr := some "connection reset", ulErr := none, dlFirst := true
    dlMbps := 0, ulMbps := 20, latency := 0, now := 222 }

/-! ## C7: pause/resume idempotence -/

/-- C7: pause and resume are idempotent on each rate controller — calling
`PausePing` (resp. `ResumePing`, `PauseNetwork`, `ResumeNetwork`) twice in
a row produces exactly the state of calling it once, hence also the same
`Status()` string, and the status after a pause is `"Paused"`. -/
theorem pause_resume_idempotent (m : NetworkMonitor) :
    pausePing (pausePing m) = pausePing m ∧
    resumePing (resumePing m) = resumePing m ∧
    pauseNetwork (pauseNetwork m) = pauseNetwork m ∧
    resumeNetwork (resumeNetwork m) = resumeNetwork m ∧
    (pausePing (pausePing m)).pingLimiter.status = "Paused" ∧
    (pausePing m).pingLimiter.status = "Paused" ∧
    (pauseNetwork (pauseNetwork m)).networkLimiter.status = "Paused" ∧
    (pauseNetwork m).networkLimiter.status = "Paused" :=
  ⟨rfl, rfl, rfl, rfl, rfl, rfl, rfl, rfl⟩

/-! ## C10: the POST control-command dispatch -/

/-- C10: each of the four known control commands invokes exactly the
corresponding scheduler method and answers 200, and every other command
value answers 400 without invoking any scheduler method or changing any
limiter state. -/
theorem handlePost_dispatch (m : NetworkMonitor) :
    handlePost "pause-ping" m = ({ status := 200, body := "Ping paused" }, pausePing m) ∧
    handlePost "resume-ping" m = ({ status := 200, body := "Ping resumed" }, resumePing m) ∧
    handlePost "pause-network" m
      = ({ status := 200, body := "Network paused" }, pauseNetwork m) ∧
    handlePost "resume-network" m
      = ({ status := 200, body := "Network resumed" }, resumeNetwork m) ∧
    (∀ a : String, a ≠ "pause-ping" → a ≠ "resume-ping" → a ≠ "pause-network" →
      a ≠ "resume-network" →
      handlePost a m = ({ status := 400, body := "Invalid action" }, m)) := by
  refine ⟨rfl, rfl, rfl, rfl, ?_⟩
  intro a h1 h2 h3 h4
  simp [handlePost, h1, h2, h3, h4]

/-- Witness for C10 at concrete inputs: an unknown command is rejected with
400 and leaves the monitor untouched, while a known one dispatches. -/
theorem handlePost_dispatch_witness :
    handlePost "reboot" (newNetwork 15000000000 60000000000)
      = ({ status := 400, body := "Invalid action" }, newNetwork 15000000000 60000000000) ∧
    handlePost "pause-ping" (newNetwork 15000000000 60000000000)
      = ({ status := 200, body := "Ping paused" },
         pausePing (newNetwork 15000000000 60000000000)) :=
  ⟨(handlePost_dispatch (newNetwork 15000000000 60000000000)).2.2.2.2 "reboot"
      (by decide) (by decide) (by decide) (by decide),
   (handlePost_dispatch (newNetwork 15000000000 60000000000)).1⟩

/-! ## C3: the single-slot trigger channel -/

/-- Reachable channel occupancy stays at most one. Helper for C3. -/
theorem chanApply_le_one (ops : List Bool) : ∀ p : Nat, p ≤ 1 → chanApply ops p ≤ 1 := by
  induction ops with
  | nil => intro p hp; simpa [chanApply] using hp
  | cons op rest ih =>
    intro p hp
    simp only [chanApply]
    apply ih
    interval_cases p <;> cases op <;> decide

/-- C3: the trigger channel holds at most one pending trigger in every
reachable state; a post (`triggerNetwork`) never blocks — it buffers the
notification exactly when none is pending and drops it otherwise — and two
posts before a drain are observed as exactly one delivered trigger (the
first drain delivers, a second drain finds the channel empty). -/
theorem trigger_single_slot :
    (∀ ops : List Bool, chanApply ops 0 ≤ 1) ∧
    (∀ pending : Nat, pending = 0 → triggerNetwork pending = (1, true)) ∧
    (∀ pending : Nat, pending ≠ 0 → triggerNetwork pending = (pending, false)) ∧
    (triggerNetwork (triggerNetwork 0).1).1 = 1 ∧
    drainTrigger (triggerNetwork (triggerNetwork 0).1).1 = (0, true) ∧
    drainTrigger (drainTrigger (triggerNetwork (triggerNetwork 0).1).1).1
      = (0, false) := by
  refine ⟨fun ops => chanApply_le_one ops 0 (by omega), ?_, ?_, rfl, rfl, rfl⟩
  · intro pending h
    subst h
    rfl
  · intro pending h
    have hnl : ¬ pending < 1 := by omega
    simp [triggerNetwork, hnl]

/-- Witness for C3 at a concrete input: a post onto the empty channel is
buffered, a post onto the full channel is dropped. -/
theorem trigger_single_slot_witness :
    triggerNetwork 0 = (1, true) ∧ triggerNetwork 1 = (1, false) :=
  ⟨trigger_single_slot.2.1 0 rfl, trigger_single_slot.2.2.1 1 (by omega)⟩

/-! ## C4: the throughput loop never bypasses the limiter -/

/-- `Allow()` consumes exactly one token from the pool (tokens, or the
burst pool in the limit-0 special case) when it grants, and changes nothing
when it denies. Helper for C4. -/
theorem allow_consumes (lim : TrackingLimiter) (hfin : lim.limit ≠ .inf) :
    (lim.allow.1 = true → lim.allow.2.tokens + lim.allow.2.burst + 1
        = lim.tokens + lim.burst) ∧
    (lim.allow.1 = false → lim.allow.2 = lim) := by
  rcases hlim : lim.limit with _ | r
  · exact absurd hlim hfin
  · by_cases hr : r = 0
    · subst hr
      by_cases hb : 1 ≤ lim.burst
      · have h : lim.allow = (true, { lim with burst := lim.burst - 1 }) := by
          simp [TrackingLimiter.allow, hlim, hb]
        rw [h]
        refine ⟨fun _ => ?_, fun hf => by simp at hf⟩
        show lim.tokens + (lim.burst - 1) + 1 = lim.tokens + lim.burst
        omega
      · have h : lim.allow = (false, lim) := by
          simp [TrackingLimiter.allow, hlim, hb]
        rw [h]
        exact ⟨fun ht => by simp at ht, fun _ => rfl⟩
    · by_cases ht : 1 ≤ lim.tokens
      · have h : lim.allow = (true, { lim with tokens := lim.tokens - 1 }) := by
          simp [TrackingLimiter.allow, hlim, hr, ht]
        rw [h]
        refine ⟨fun _ => ?_, fun hf => by simp at hf⟩
        show (lim.tokens - 1) + lim.burst + 1 = lim.tokens + lim.burst
        omega
      · have h : lim.allow = (false, lim) := by
          simp [TrackingLimiter.allow, hlim, hr, ht]
        rw [h]
        exact ⟨fun htr => by simp at htr, fun _ => rfl⟩

/-- Unfolding one iteration of `networkLoopRun`. Helper for C4. -/
theorem networkLoopRun_cons (ev : NetEvent) (evs : List NetEvent)
    (lim : TrackingLimiter) :
    networkLoopRun (ev :: evs) lim
      = ((if (networkLoopStep ev lim).1 then 1 else 0)
           + (networkLoopRun evs (networkLoopStep ev lim).2).1,
         (networkLoopRun evs (networkLoopStep ev lim).2).2) := rfl

/-- C4: in every iteration of the throughput-check loop woken by the
trigger or by the ticker, the probe runs exactly when `Allow()` grants; a
granted occurrence consumes one token from the pool, and a denied one
leaves the limiter unchanged and the rest of the run exactly as if the
occurrence had never been delivered (skipped, not queued or deferred). -/
theorem network_probe_gated (lim : TrackingLimiter) (ev : NetEvent)
    (hev : ev ≠ .cancelled) (hfin : lim.limit ≠ .inf) :
    (networkLoopStep ev lim).1 = lim.allow.1 ∧
    ((networkLoopStep ev lim).1 = true →
       (networkLoopStep ev lim).2.tokens + (networkLoopStep ev lim).2.burst + 1
         = lim.tokens + lim.burst) ∧
    ((networkLoopStep ev lim).1 = false →
       (networkLoopStep ev lim).2 = lim ∧
       ∀ evs, networkLoopRun (ev :: evs) lim = networkLoopRun evs lim) := by
  have hstep : networkLoopStep ev lim = (lim.allow.1, lim.allow.2) := by
    cases ev with
    | cancelled => exact absurd rfl hev
    | trigger => rfl
    | tick => rfl
  have hcons := allow_consumes lim hfin
  refine ⟨by rw [hstep], ?_, ?_⟩
  · intro htrue
    rw [hstep] at htrue ⊢
    exact hcons.1 htrue
  · intro hfalse
    rw [hstep] at hfalse ⊢
    have hfalse' : lim.allow.1 = false := hfalse
    have heq : lim.allow.2 = lim := hcons.2 hfalse'
    refine ⟨heq, fun evs => ?_⟩
    rw [networkLoopRun_cons, hstep]
    simp [hfalse', heq]

/-- A concrete active limiter (finite rate 1/s, burst 3, bucket full) for
witnesses. -/
def limWitness : TrackingLimiter :=
  { limit := .finite 1, burst := 3, tokens := 3, originalLimit := .finite 1 }

/-- Witness for C4 at a concrete input: a triggered iteration on an active
limiter with a full bucket runs the probe exactly when `Allow()` grants. -/
theorem network_probe_gated_witness :
    (networkLoopStep NetEvent.trigger limWitness).1 = limWitness.allow.1 ∧
    limWitness.allow.1 = true :=
  ⟨(network_probe_gated limWitness NetEvent.trigger (by decide) (by decide)).1,
   by decide⟩

/-! ## C1: what a failed ping does to the latency history -/

/-- Counterexample to C1 as stated: with the server fetch and selection
succeeding and the ping itself failing, `PerformPingTest` returns the error
but the latency history has gained a zero-valued entry (the `result`
prepended at line 118 before the ping ran), so it is not what it was
before the call. -/
theorem ping_failure_mutates_history :
    (performPingTest envPingFail ClientState.init).1
      = .error (.pingFailed "ping timeout") ∧
    ClientState.init.lastPingResults = [] ∧
    (performPingTest envPingFail ClientState.init).2.lastPingResults
      = [PingResult.zero] :=
  ⟨rfl, rfl, rfl⟩

/-- C1 amended: on success exactly one new (filled) entry is prepended to
the latency history; when the ping measurement itself fails the error is
returned but one zero-valued entry has been prepended (evicting beyond
capacity); failures before the lock (server fetch or selection) leave the
whole state unchanged. The throughput history is never touched. -/
theorem ping_history_amended (env : PingEnv) (s : ClientState) :
    (pingSucceeds env = true →
       (performPingTest env s).1 = .ok (pingResultOf env) ∧
       (performPingTest env s).2.lastPingResults
         = (pingResultOf env :: s.lastPingResults).take maxHistory ∧
       (performPingTest env s).2.lastNetworkResults = s.lastNetworkResults) ∧
    (env.fetchErr = none → env.findErr = none → env.targets ≠ [] →
       ∀ e, env.pingErr = some e →
         (performPingTest env s).1 = .error (.pingFailed e) ∧
         (performPingTest env s).2.lastPingResults
           = (PingResult.zero :: s.lastPingResults).take maxHistory ∧
         (performPingTest env s).2.lastNetworkResults = s.lastNetworkResults) ∧
    ((env.fetchErr ≠ none ∨ env.findErr ≠ none ∨ env.targets = []) →
       (performPingTest env s).2 = s) := by
  obtain ⟨fe, fi, tg, pe, pl, now⟩ := env
  refine ⟨?_, ?_, ?_⟩
  · intro hs
    simp only [pingSucceeds, Bool.and_eq_true, Option.isNone_iff_eq_none,
      Bool.not_eq_true', List.isEmpty_eq_false] at hs
    obtain ⟨⟨⟨h1, h2⟩, h3⟩, h4⟩ := hs
    subst h1
    subst h2
    subst h4
    cases tg with
    | nil => exact absurd rfl h3
    | cons t rest => exact ⟨rfl, rfl, rfl⟩
  · intro h1 h2 h3 e h4
    subst h1
    subst h2
    subst h4
    cases tg with
    | nil => exact absurd rfl h3
    | cons t rest => exact ⟨rfl, rfl, rfl⟩
  · intro h
    cases fe with
    | some _ => rfl
    | none =>
      cases fi with
      | some _ => rfl
      | none =>
        cases tg with
        | nil => rfl
        | cons t rest =>
          rcases h with h | h | h
          · exact absurd rfl h
          · exact absurd rfl h
          · exact absurd h (by simp)

/-- Witness for C1's amended theorem at concrete inputs: the successful
environment adds its filled result, the ping-failure environment adds the
zero-valued entry. -/
theorem ping_history_amended_witness :
    (performPingTest envPingOk ClientState.init).1 = .ok (pingResultOf envPingOk) ∧
    (performPingTest envPingFail ClientState.init).2.lastPingResults
      = (PingResult.zero :: ClientState.init.lastPingResults).take maxHistory :=
  ⟨((ping_history_amended envPingOk ClientState.init).1 (by decide)).1,
   ((ping_history_amended envPingFail ClientState.init).2.1 rfl rfl (by decide)
      "ping timeout" rfl).2.1⟩

/-! ## C5: aggregated throughput sub-measurement failures -/

/-- `performTests` returns the nil error exactly when both sub-measurements
succeed. Helper for C5. -/
theorem performTests_eq_nil_iff (dl ul : Option String) (b : Bool) :
    performTests dl ul b = [] ↔ dl = none ∧ ul = none := by
  cases dl <;> cases ul <;> cases b <;> simp [performTests]

/-- C5: when either sub-measurement fails, `PerformSpeedTest` returns a
single aggregated error whose list of causes contains every failure that
occurred (both when both fail), and the throughput history — indeed the
whole client state — is unchanged. -/
theorem speed_error_aggregation (env : SpeedEnv) (s : ClientState)
    (hf : env.fetchErr = none) (hn : env.findErr = none) (ht : env.targets ≠ [])
    (hfail : env.dlErr ≠ none ∨ env.ulErr ≠ none) :
    (performSpeedTest env s).1
      = .error (.testsFailed (performTests env.dlErr env.ulErr env.dlFirst)) ∧
    (∀ e, env.dlErr = some e →
       ("download test failed: " ++ e) ∈ performTests env.dlErr env.ulErr env.dlFirst) ∧
    (∀ e, env.ulErr = some e →
       ("upload test failed: " ++ e) ∈ performTests env.dlErr env.ulErr env.dlFirst) ∧
    (performSpeedTest env s).2 = s := by
  obtain ⟨fe, fi, tg, dl, ul, b, dm, um, lat, now⟩ := env
  simp only at hf hn ht hfail ⊢
  subst hf
  subst hn
  have hne : performTests dl ul b ≠ [] := by
    rw [Ne, performTests_eq_nil_iff]
    tauto
  cases tg with
  | nil => exact absurd rfl ht
  | cons t rest =>
    refine ⟨?_, ?_, ?_, ?_⟩
    · rcases hpt : performTests dl ul b with _ | ⟨e0, es⟩
      · exact absurd hpt hne
      · simp [performSpeedTest, hpt]
    · intro e he
      subst he
      cases ul <;> cases b <;> simp [performTests]
    · intro e he
      subst he
      cases dl <;> cases b <;> simp [performTests]
    · rcases hpt : performTests dl ul b with _ | ⟨e0, es⟩
      · exact absurd hpt hne
      · simp [performSpeedTest, hpt]

/-- Witness for C5 at a concrete input: download fails, upload succeeds;
the call returns the aggregated error carrying the download cause and the
state is untouched. -/
theorem speed_error_aggregation_witness :
    (performSpeedTest envSpeedDlFail ClientState.init).1
      = .error (.testsFailed ["download test failed: connection reset"]) ∧
    (performSpeedTest envSpeedDlFail ClientState.init).2 = ClientState.init := by
  have h := speed_error_aggregation envSpeedDlFail ClientState.init rfl rfl
    (by decide) (Or.inl (by decide))
  exact ⟨by simpa [performTests] using h.1, h.2.2.2⟩

/-! ## C2: the bounded, most-recent-first history -/

/-- Truncating before appending on the right is absorbed by the final
truncation. Helper for C2. -/
theorem take_append_take {α : Type} (A B : List α) (n : Nat) :
    (A ++ B.take n).take n = (A ++ B).take n := by
  rw [List.take_append_eq_append_take, List.take_append_eq_append_take,
    List.take_take, Nat.min_eq_left (Nat.sub_le n A.length)]

/-- A successful ping probe prepends exactly its filled result (with
eviction) and leaves the throughput history alone. Helper for C2. -/
theorem applyProbe_ping_success (e : PingEnv) (s : ClientState)
    (h : pingSucceeds e = true) :
    applyProbe (.ping e) s
      = { s with lastPingResults :=
            (pingResultOf e :: s.lastPingResults).take maxHistory } := by
  obtain ⟨fe, fi, tg, pe, pl, now⟩ := e
  simp only [pingSucceeds, Bool.and_eq_true, Option.isNone_iff_eq_none,
    Bool.not_eq_true', List.isEmpty_eq_false] at h
  obtain ⟨⟨⟨h1, h2⟩, h3⟩, h4⟩ := h
  subst h1
  subst h2
  subst h4
  cases tg with
  | nil => exact absurd rfl h3
  | cons t rest => rfl

/-- A successful throughput probe prepends exactly its result (with
eviction) and leaves the latency history alone. Helper for C2. -/
theorem applyProbe_speed_success (e : SpeedEnv) (s : ClientState)
    (h : speedSucceeds e = true) :
    applyProbe (.speed e) s
      = { s with lastNetworkResults :=
            (speedResultOf e :: s.lastNetworkResults).take maxHistory } := by
  obtain ⟨fe, fi, tg, dl, ul, b, dm, um, lat, now⟩ := e
  simp only [speedSucceeds, Bool.and_eq_true, Option.isNone_iff_eq_none,
    Bool.not_eq_true', List.isEmpty_eq_false] at h
  obtain ⟨⟨⟨⟨h1, h2⟩, h3⟩, h4⟩, h5⟩ := h
  subst h1
  subst h2
  subst h4
  subst h5
  cases tg with
  | nil => exact absurd rfl h3
  | cons t rest => cases b <;> rfl

/-- Folding a non-empty all-successful run of ping probes: the latency
history becomes the reversed results appended to the old history, truncated
to capacity; the throughput history is untouched. Helper for C2. -/
theorem applyProbes_ping_fold (pes : List PingEnv) :
    ∀ (e : PingEnv) (s : ClientState), (∀ x ∈ e :: pes, pingSucceeds x = true) →
      (applyProbes ((e :: pes).map ProbeOp.ping) s).lastPingResults
        = (((e :: pes).map pingResultOf).reverse ++ s.lastPingResults).take maxHistory ∧
      (applyProbes ((e :: pes).map ProbeOp.ping) s).lastNetworkResults
        = s.lastNetworkResults := by
  induction pes with
  | nil =>
    intro e s h
    have he := h e (by simp)
    have hstep : applyProbes ([e].map ProbeOp.ping) s = applyProbe (ProbeOp.ping e) s := rfl
    rw [hstep, applyProbe_ping_success e s he]
    exact ⟨by simp, rfl⟩
  | cons e2 pes ih =>
    intro e s h
    have he := h e (by simp)
    have hrest : ∀ x ∈ e2 :: pes, pingSucceeds x = true := fun x hx => h x (by simp [hx])
    have hstep : applyProbes ((e :: e2 :: pes).map ProbeOp.ping) s
        = applyProbes ((e2 :: pes).map ProbeOp.ping)
            { s with lastPingResults :=
                (pingResultOf e :: s.lastPingResults).take maxHistory } := by
      show applyProbes ((e2 :: pes).map ProbeOp.ping) (applyProbe (ProbeOp.ping e) s) = _
      rw [applyProbe_ping_success e s he]
    obtain ⟨ih1, ih2⟩ := ih e2
      { s with lastPingResults := (pingResultOf e :: s.lastPingResults).take maxHistory }
      hrest
    constructor
    · rw [hstep, ih1]
      show (((e2 :: pes).map pingResultOf).reverse
          ++ (pingResultOf e :: s.lastPingResults).take maxHistory).take maxHistory = _
      rw [take_append_take]
      congr 1
      simp [List.append_assoc]
    · rw [hstep, ih2]

/-- Folding a non-empty all-successful run of throughput probes. Helper for
C2. -/
theorem applyProbes_speed_fold (ses : List SpeedEnv) :
    ∀ (e : SpeedEnv) (s : ClientState), (∀ x ∈ e :: ses, speedSucceeds x = true) →
      (applyProbes ((e :: ses).map ProbeOp.speed) s).lastNetworkResults
        = (((e :: ses).map speedResultOf).reverse ++ s.lastNetworkResults).take maxHistory ∧
      (applyProbes ((e :: ses).map ProbeOp.speed) s).lastPingResults
        = s.lastPingResults := by
  induction ses with
  | nil =>
    intro e s h
    have he := h e (by simp)
    have hstep : applyProbes ([e].map ProbeOp.speed) s = applyProbe (ProbeOp.speed e) s := rfl
    rw [hstep, applyProbe_speed_success e s he]
    exact ⟨by simp, rfl⟩
  | cons e2 ses ih =>
    intro e s h
    have he := h e (by simp)
    have hrest : ∀ x ∈ e2 :: ses, speedSucceeds x = true := fun x hx => h x (by simp [hx])
    have hstep : applyProbes ((e :: e2 :: ses).map ProbeOp.speed) s
        = applyProbes ((e2 :: ses).map ProbeOp.speed)
            { s with lastNetworkResults :=
                (speedResultOf e :: s.lastNetworkResults).take maxHistory } := by
      show applyProbes ((e2 :: ses).map ProbeOp.speed) (applyProbe (ProbeOp.speed e) s) = _
      rw [applyProbe_speed_success e s he]
    obtain ⟨ih1, ih2⟩ := ih e2
      { s with lastNetworkResults := (speedResultOf e :: s.lastNetworkResults).take maxHistory }
      hrest
    constructor
    · rw [hstep, ih1]
      show (((e2 :: ses).map speedResultOf).reverse
          ++ (speedResultOf e :: s.lastNetworkResults).take maxHistory).take maxHistory = _
      rw [take_append_take]
      congr 1
      simp [List.append_assoc]
    · rw [hstep, ih2]

/-- Every single probe operation keeps both history lengths within
capacity. Helper for C2. -/
theorem applyProbe_lengths (op : ProbeOp) (s : ClientState)
    (h1 : s.lastPingResults.length ≤ maxHistory)
    (h2 : s.lastNetworkResults.length ≤ maxHistory) :
    (applyProbe op s).lastPingResults.length ≤ maxHistory ∧
    (applyProbe op s).lastNetworkResults.length ≤ maxHistory := by
  cases op with
  | ping env =>
    obtain ⟨fe, fi, tg, pe, pl, now⟩ := env
    cases fe <;> cases fi <;> cases tg <;> cases pe <;>
      refine ⟨?_, ?_⟩ <;>
      simp [applyProbe, performPingTest, List.length_take] <;>
      omega
  | speed env =>
    obtain ⟨fe, fi, tg, dl, ul, b, dm, um, lat, now⟩ := env
    cases fe <;> cases fi <;> cases tg <;> cases dl <;> cases ul <;> cases b <;>
      refine ⟨?_, ?_⟩ <;>
      simp [applyProbe, performSpeedTest, performTests, List.length_take] <;>
      omega

/-- Both history lengths stay within capacity along any run. Helper for
C2. -/
theorem applyProbes_lengths (ops : List ProbeOp) :
    ∀ s : ClientState, s.lastPingResults.length ≤ maxHistory →
      s.lastNetworkResults.length ≤ maxHistory →
      (applyProbes ops s).lastPingResults.length ≤ maxHistory ∧
      (applyProbes ops s).lastNetworkResults.length ≤ maxHistory := by
  induction ops with
  | nil => intro s h1 h2; exact ⟨h1, h2⟩
  | cons op rest ih =>
    intro s h1 h2
    have h := applyProbe_lengths op s h1 h2
    exact ih (applyProbe op s) h.1 h.2

/-- C2: after a run of N > 10 successful probes of one kind, that kind's
history is exactly the 10 most recent results, most-recent first (the
reversed run truncated to capacity, independent of the starting history),
containing exactly `maxHistory` entries; and along any run of probe
operations from the initial state — successes and failures alike — both
history lengths stay at most `maxHistory`. -/
theorem history_bound (pes : List PingEnv) (ses : List SpeedEnv)
    (s1 s2 : ClientState)
    (hp : ∀ x ∈ pes, pingSucceeds x = true)
    (hs : ∀ x ∈ ses, speedSucceeds x = true)
    (hlp : maxHistory < pes.length) (hls : maxHistory < ses.length) :
    (applyProbes (pes.map ProbeOp.ping) s1).lastPingResults
      = ((pes.map pingResultOf).reverse).take maxHistory ∧
    ((applyProbes (pes.map ProbeOp.ping) s1).lastPingResults).length = maxHistory ∧
    (applyProbes (ses.map ProbeOp.speed) s2).lastNetworkResults
      = ((ses.map speedResultOf).reverse).take maxHistory ∧
    ((applyProbes (ses.map ProbeOp.speed) s2).lastNetworkResults).length = maxHistory ∧
    (∀ ops : List ProbeOp,
       (applyProbes ops ClientState.init).lastPingResults.length ≤ maxHistory ∧
       (applyProbes ops ClientState.init).lastNetworkResults.length ≤ maxHistory) := by
  have hping : (applyProbes (pes.map ProbeOp.ping) s1).lastPingResults
      = ((pes.map pingResultOf).reverse).take maxHistory := by
    cases pes with
    | nil => simp at hlp
    | cons e rest =>
      have hlen : maxHistory ≤ ((e :: rest).map pingResultOf).reverse.length := by
        simp only [List.length_reverse, List.length_map]
        omega
      rw [(applyProbes_ping_fold rest e s1 hp).1, List.take_append_of_le_length hlen]
  have hspeed : (applyProbes (ses.map ProbeOp.speed) s2).lastNetworkResults
      = ((ses.map speedResultOf).reverse).take maxHistory := by
    cases ses with
    | nil => simp at hls
    | cons e rest =>
      have hlen : maxHistory ≤ ((e :: rest).map speedResultOf).reverse.length := by
        simp only [List.length_reverse, List.length_map]
        omega
      rw [(applyProbes_speed_fold rest e s2 hs).1, List.take_append_of_le_length hlen]
  refine ⟨hping, ?_, hspeed, ?_, ?_⟩
  · rw [hping, List.length_take]
    simp only [List.length_reverse, List.length_map]
    omega
  · rw [hspeed, List.length_take]
    simp only [List.length_reverse, List.length_map]
    omega
  · intro ops
    exact applyProbes_lengths ops ClientState.init (by decide) (by decide)

/-- Witness for C2 at a concrete input: eleven successful probes of each
kind from the initial state. -/
theorem history_bound_witness :
    (applyProbes ((List.replicate 11 envPingOk).map ProbeOp.ping)
        ClientState.init).lastPingResults
      = (((List.replicate 11 envPingOk).map pingResultOf).reverse).take maxHistory ∧
    (applyProbes ((List.replicate 11 envSpeedOk).map ProbeOp.speed)
        ClientState.init).lastNetworkResults
      = (((List.replicate 11 envSpeedOk).map speedResultOf).reverse).take maxHistory := by
  have h := history_bound (List.replicate 11 envPingOk) (List.replicate 11 envSpeedOk)
    ClientState.init ClientState.init
    (fun x hx => by rw [List.eq_of_mem_replicate hx]; decide)
    (fun x hx => by rw [List.eq_of_mem_replicate hx]; decide)
    (by decide) (by decide)
  exact ⟨h.1, h.2.2.1⟩

/-! ## C6: the limiters only ever sit in one of two modes -/

/-- The two legal modes of a tracking limiter: paused (limit 0, burst 0) or
active with the originally configured limit and burst; the remembered
original limit never changes. -/
def limiterModes (orig : RateLimit) (origBurst : Nat) (l : TrackingLimiter) : Prop :=
  l.originalLimit = orig ∧
  ((l.limit = .finite 0 ∧ l.burst = 0) ∨ (l.limit = orig ∧ l.burst = origBurst))

/-- `rate.Every` never yields the zero limit. Helper for C6. -/
theorem rateEvery_ne_zero (intervalNs : Nat) : rateEvery intervalNs ≠ .finite 0 := by
  unfold rateEvery
  split
  · intro h
    exact RateLimit.noConfusion h
  · intro h
    injection h with h
    rename_i hns
    have : ((intervalNs : Rat)) ≠ 0 := by
      exact_mod_cast hns
    have h9 : ((1000000000 : Rat)) ≠ 0 := by norm_num
    exact div_ne_zero h9 this h

/-- `Allow()` never changes the limit nor the remembered original limit.
Helper for C6. -/
theorem allow_keeps_limits (l : TrackingLimiter) :
    l.allow.2.limit = l.limit ∧ l.allow.2.originalLimit = l.originalLimit := by
  unfold TrackingLimiter.allow
  rcases hl : l.limit with _ | r
  · exact ⟨hl, rfl⟩
  · by_cases hr : r = 0 <;> by_cases hb : 1 ≤ l.burst <;> by_cases ht : 1 ≤ l.tokens <;>
      simp [hr, hb, ht, hl]

/-- In either legal mode, `Allow()` also leaves the burst unchanged (the
paused mode has burst 0, so the limit-0 pool draw never fires). Helper for
C6. -/
theorem allow_keeps_burst (l : TrackingLimiter) (orig : RateLimit) (origBurst : Nat)
    (horig : orig ≠ .finite 0) (h : limiterModes orig origBurst l) :
    l.allow.2.burst = l.burst := by
  unfold TrackingLimiter.allow
  rcases h with ⟨-, hmode | hmode⟩
  · rcases hmode with ⟨hl, hb⟩
    simp [hl, hb]
  · rcases hmode with ⟨hl, hb⟩
    rw [hl]
    rcases horigcase : orig with _ | r
    · simp
    · have hr : r ≠ 0 := by
        intro h0
        exact horig (by rw [horigcase, h0])
      by_cases ht : 1 ≤ l.tokens <;> simp [hr, ht]

/-- One monitor control operation preserves both limiters' legal modes.
Helper for C6. -/
theorem applyMonOp_modes (op : MonOp) (m : NetworkMonitor)
    (o₁ o₂ : RateLimit) (h₁ : o₁ ≠ .finite 0) (h₂ : o₂ ≠ .finite 0)
    (hp : limiterModes o₁ burstPing m.pingLimiter)
    (hn : limiterModes o₂ burstNetwork m.networkLimiter) :
    limiterModes o₁ burstPing (applyMonOp op m).pingLimiter ∧
    limiterModes o₂ burstNetwork (applyMonOp op m).networkLimiter := by
  cases op with
  | pauseP => exact ⟨⟨hp.1, Or.inl ⟨rfl, rfl⟩⟩, hn⟩
  | resumeP => exact ⟨⟨hp.1, Or.inr ⟨hp.1, rfl⟩⟩, hn⟩
  | pauseN => exact ⟨hp, ⟨hn.1, Or.inl ⟨rfl, rfl⟩⟩⟩
  | resumeN => exact ⟨hp, ⟨hn.1, Or.inr ⟨hn.1, rfl⟩⟩⟩
  | allowP =>
    refine ⟨?_, hn⟩
    have hk := allow_keeps_limits m.pingLimiter
    have hb := allow_keeps_burst m.pingLimiter o₁ burstPing h₁ hp
    exact ⟨by rw [show (applyMonOp .allowP m).pingLimiter = m.pingLimiter.allow.2 from rfl,
        hk.2, hp.1],
      by rcases hp.2 with hm | hm
         · exact Or.inl ⟨by rw [show (applyMonOp .allowP m).pingLimiter
               = m.pingLimiter.allow.2 from rfl, hk.1, hm.1],
             by rw [show (applyMonOp .allowP m).pingLimiter
               = m.pingLimiter.allow.2 from rfl, hb, hm.2]⟩
         · exact Or.inr ⟨by rw [show (applyMonOp .allowP m).pingLimiter
               = m.pingLimiter.allow.2 from rfl, hk.1, hm.1],
             by rw [show (applyMonOp .allowP m).pingLimiter
               = m.pingLimiter.allow.2 from rfl, hb, hm.2]⟩⟩
  | allowN =>
    refine ⟨hp, ?_⟩
    have hk := allow_keeps_limits m.networkLimiter
    have hb := allow_keeps_burst m.networkLimiter o₂ burstNetwork h₂ hn
    exact ⟨by rw [show (applyMonOp .allowN m).networkLimiter
        = m.networkLimiter.allow.2 from rfl, hk.2, hn.1],
      by rcases hn.2 with hm | hm
         · exact Or.inl ⟨by rw [show (applyMonOp .allowN m).networkLimiter
               = m.networkLimiter.allow.2 from rfl, hk.1, hm.1],
             by rw [show (applyMonOp .allowN m).networkLimiter
               = m.networkLimiter.allow.2 from rfl, hb, hm.2]⟩
         · exact Or.inr ⟨by rw [show (applyMonOp .allowN m).networkLimiter
               = m.networkLimiter.allow.2 from rfl, hk.1, hm.1],
             by rw [show (applyMonOp .allowN m).networkLimiter
               = m.networkLimiter.allow.2 from rfl, hb, hm.2]⟩⟩

/-- The legal modes are preserved along any run of control operations.
Helper for C6. -/
theorem applyMonOps_modes (ops : List MonOp) :
    ∀ (m : NetworkMonitor) (o₁ o₂ : RateLimit), o₁ ≠ .finite 0 → o₂ ≠ .finite 0 →
      limiterModes o₁ burstPing m.pingLimiter →
      limiterModes o₂ burstNetwork m.networkLimiter →
      limiterModes o₁ burstPing (applyMonOps ops m).pingLimiter ∧
      limiterModes o₂ burstNetwork (applyMonOps ops m).networkLimiter := by
  induction ops with
  | nil => intro m o₁ o₂ _ _ hp hn; exact ⟨hp, hn⟩
  | cons op rest ih =>
    intro m o₁ o₂ h₁ h₂ hp hn
    have h := applyMonOp_modes op m o₁ o₂ h₁ h₂ hp hn
    exact ih (applyMonOp op m) o₁ o₂ h₁ h₂ h.1 h.2

/-- C6: starting from construction, after any sequence of pause, resume and
allow operations each limiter's effective limit is either 0 (with burst 0)
or exactly the originally configured `rate.Every` limit (with the original
burst constant); the remembered original limit never changes; and a resume
restores precisely the construction-time limit and burst. -/
theorem limiter_two_mode (ops : List MonOp) (pingIntervalNs networkIntervalNs : Nat) :
    limiterModes (rateEvery pingIntervalNs) burstPing
      (applyMonOps ops (newNetwork pingIntervalNs networkIntervalNs)).pingLimiter ∧
    limiterModes (rateEvery networkIntervalNs) burstNetwork
      (applyMonOps ops (newNetwork pingIntervalNs networkIntervalNs)).networkLimiter ∧
    (applyMonOps (ops ++ [MonOp.resumeP])
        (newNetwork pingIntervalNs networkIntervalNs)).pingLimiter.limit
      = rateEvery pingIntervalNs ∧
    (applyMonOps (ops ++ [MonOp.resumeP])
        (newNetwork pingIntervalNs networkIntervalNs)).pingLimiter.burst = burstPing ∧
    (applyMonOps (ops ++ [MonOp.resumeN])
        (newNetwork pingIntervalNs networkIntervalNs)).networkLimiter.limit
      = rateEvery networkIntervalNs ∧
    (applyMonOps (ops ++ [MonOp.resumeN])
        (newNetwork pingIntervalNs networkIntervalNs)).networkLimiter.burst
      = burstNetwork := by
  have hinit : limiterModes (rateEvery pingIntervalNs) burstPing
      (newNetwork pingIntervalNs networkIntervalNs).pingLimiter ∧
      limiterModes (rateEvery networkIntervalNs) burstNetwork
        (newNetwork pingIntervalNs networkIntervalNs).networkLimiter :=
    ⟨⟨rfl, Or.inr ⟨rfl, rfl⟩⟩, ⟨rfl, Or.inr ⟨rfl, rfl⟩⟩⟩
  have hmain := applyMonOps_modes ops (newNetwork pingIntervalNs networkIntervalNs)
    (rateEvery pingIntervalNs) (rateEvery networkIntervalNs)
    (rateEvery_ne_zero pingIntervalNs) (rateEvery_ne_zero networkIntervalNs)
    hinit.1 hinit.2
  have happ : ∀ (op : MonOp),
      applyMonOps (ops ++ [op]) (newNetwork pingIntervalNs networkIntervalNs)
        = applyMonOp op (applyMonOps ops (newNetwork pingIntervalNs networkIntervalNs)) := by
    intro op
    have hgen : ∀ (l : List MonOp) (m : NetworkMonitor),
        applyMonOps (l ++ [op]) m = applyMonOp op (applyMonOps l m) := by
      intro l
      induction l with
      | nil => intro m; rfl
      | cons x rest ih => intro m; exact ih (applyMonOp x m)
    exact hgen ops _
  refine ⟨hmain.1, hmain.2, ?_, ?_, ?_, ?_⟩
  · rw [happ MonOp.resumeP]
    exact hmain.1.1
  · rw [happ MonOp.resumeP]
    rfl
  · rw [happ MonOp.resumeN]
    exact hmain.2.1
  · rw [happ MonOp.resumeN]
    rfl

/-! ## C8: when a latency result can and cannot change -/

/-- `getD` into the left part of an append. Helper for C8. -/
theorem getD_append_left {α : Type} (l l' : List α) (i : Nat) (d : α)
    (h : i < l.length) : (l ++ l').getD i d = l.getD i d := by
  induction l generalizing i with
  | nil => simp at h
  | cons x xs ih =>
    cases i with
    | zero => rfl
    | succ j =>
      have hj : j < xs.length := by simpa using h
      simpa [List.getD] using ih j hj

/-- `set` at one index leaves `getD` at any other index unchanged. Helper
for C8. -/
theorem getD_set_of_ne {α : Type} (l : List α) (n i : Nat) (a d : α)
    (h : i ≠ n) : (l.set n a).getD i d = l.getD i d := by
  induction l generalizing n i with
  | nil => rfl
  | cons x xs ih =>
    cases n with
    | zero =>
      cases i with
      | zero => exact absurd rfl h
      | succ j => rfl
    | succ k =>
      cases i with
      | zero => rfl
      | succ j =>
        have hj : j ≠ k := fun hjk => h (by rw [hjk])
        simpa [List.getD] using ih k j hj

/-- Counterexample to C8 as stated: in the pointer-level model of one
successful `PerformPingTest`, the freshly allocated result cell is inserted
into the latency history first (its latency still the zero value) and its
fields are then changed by the latency callback — so a result does have
its fields changed after it has been inserted into the history. -/
theorem ping_result_mutated_after_insert :
    (pingInsertPhase RefState.init).history = [0] ∧
    ((pingInsertPhase RefState.init).heap.getD 0 PingResult.zero).latency = 0 ∧
    (performPingTestRef envPingOk RefState.init).history = [0] ∧
    ((performPingTestRef envPingOk RefState.init).heap.getD 0 PingResult.zero).latency
      = 5000000 :=
  ⟨rfl, rfl, rfl, rfl⟩

/-- One full `PerformPingTest` call never changes a previously allocated
cell, and only grows the heap. Helper for C8. -/
theorem pingRef_frame (env : PingEnv) (s : RefState) (i : Nat)
    (h : i < s.heap.length) :
    (performPingTestRef env s).heap.getD i PingResult.zero
      = s.heap.getD i PingResult.zero ∧
    s.heap.length ≤ (performPingTestRef env s).heap.length := by
  obtain ⟨fe, fi, tg, pe, pl, now⟩ := env
  cases fe with
  | some _ => exact ⟨rfl, Nat.le_refl _⟩
  | none =>
    cases fi with
    | some _ => exact ⟨rfl, Nat.le_refl _⟩
    | none =>
      cases tg with
      | nil => exact ⟨rfl, Nat.le_refl _⟩
      | cons t rest =>
        cases pe with
        | some _ =>
          constructor
          · show (s.heap ++ [PingResult.zero]).getD i PingResult.zero
              = s.heap.getD i PingResult.zero
            exact getD_append_left s.heap [PingResult.zero] i PingResult.zero h
          · show s.heap.length ≤ (s.heap ++ [PingResult.zero]).length
            simp
        | none =>
          constructor
          · show ((s.heap ++ [PingResult.zero]).set s.heap.length
                (pingResultOf ⟨none, none, t :: rest, none, pl, now⟩)).getD i PingResult.zero
              = s.heap.getD i PingResult.zero
            rw [getD_set_of_ne _ _ _ _ _ (Nat.ne_of_lt h)]
            exact getD_append_left s.heap [PingResult.zero] i PingResult.zero h
          · show s.heap.length
              ≤ ((s.heap ++ [PingResult.zero]).set s.heap.length
                  (pingResultOf ⟨none, none, t :: rest, none, pl, now⟩)).length
            simp

/-- C8 amended: a latency result can only be written by the very call that
allocated it, while that call still holds the client's write lock — before
any snapshot can observe it. Across whole operations the cell is frozen:
any run of further `PerformPingTest` calls leaves every previously
allocated cell's fields unchanged (and only grows the heap), so a history
entry visible in one snapshot has the same field values in every later
snapshot in which it still appears. -/
theorem ping_result_immutable_across_calls (envs : List PingEnv) :
    ∀ (s : RefState) (i : Nat), i < s.heap.length →
      (applyPingRefs envs s).heap.getD i PingResult.zero
        = s.heap.getD i PingResult.zero ∧
      s.heap.length ≤ (applyPingRefs envs s).heap.length ∧
      (∀ j ∈ s.history, j < s.heap.length →
        (applyPingRefs envs s).heap.getD j PingResult.zero
          = s.heap.getD j PingResult.zero) := by
  induction envs with
  | nil =>
    intro s i _
    exact ⟨rfl, Nat.le_refl _, fun j _ _ => rfl⟩
  | cons env rest ih =>
    intro s i hi
    have hstep := pingRef_frame env s i hi
    have hi' : i < (performPingTestRef env s).heap.length := Nat.lt_of_lt_of_le hi hstep.2
    have hrest := ih (performPingTestRef env s) i hi'
    refine ⟨?_, ?_, ?_⟩
    · show (applyPingRefs rest (performPingTestRef env s)).heap.getD i PingResult.zero = _
      rw [hrest.1, hstep.1]
    · exact Nat.le_trans hstep.2 hrest.2.1
    · intro j hj hjlt
      have hstepj := pingRef_frame env s j hjlt
      have hj' : j < (performPingTestRef env s).heap.length :=
        Nat.lt_of_lt_of_le hjlt hstepj.2
      have hrestj := ih (performPingTestRef env s) j hj'
      show (applyPingRefs rest (performPingTestRef env s)).heap.getD j PingResult.zero = _
      rw [hrestj.1, hstepj.1]

/-- Witness for C8's amended theorem at concrete inputs: after one
successful call, a further failing call leaves the first result's cell
untouched. -/
theorem ping_result_immutable_across_calls_witness :
    0 < (performPingTestRef envPingOk RefState.init).heap.length ∧
    (applyPingRefs [envPingFail] (performPingTestRef envPingOk RefState.init)).heap.getD
        0 PingResult.zero
      = (performPingTestRef envPingOk RefState.init).heap.getD 0 PingResult.zero :=
  ⟨by decide,
   (ping_result_immutable_across_calls [envPingFail]
      (performPingTestRef envPingOk RefState.init) 0 (by decide)).1⟩

/-! ## C9: where the lock sits relative to the probe calls -/

/-- Counterexample to C9 as stated: on the all-successful paths, both
`PerformPingTest` and `PerformSpeedTest` execute their network probe calls
(the ping, and the download/upload measurements) while the client's write
lock is held — the lock is taken before the measurement and only released
by the deferred unlock on return. -/
theorem lock_held_across_probe :
    probeWhileLocked (pingTestTrace envPingOk) 0 = true ∧
    probeWhileLocked (speedTestTrace envSpeedOk) 0 = true :=
  ⟨rfl, rfl⟩

/-- C9 amended: whenever a probe operation reaches its lock acquisition
(server fetch and selection succeeded), the write lock IS held across the
probe invocation — in `PerformPingTest` across the ping, in
`PerformSpeedTest` across the download and upload measurements; only the
introspection snapshot `getPageData` holds its (read) lock without any
probe call inside the critical section. -/
theorem lock_probe_discipline (penv : PingEnv) (senv : SpeedEnv)
    (hp1 : penv.fetchErr = none) (hp2 : penv.findErr = none)
    (hp3 : penv.targets ≠ [])
    (hs1 : senv.fetchErr = none) (hs2 : senv.findErr = none)
    (hs3 : senv.targets ≠ []) :
    probeWhileLocked (pingTestTrace penv) 0 = true ∧
    probeWhileLocked (speedTestTrace senv) 0 = true ∧
    probeWhileLocked pageDataTrace 0 = false := by
  obtain ⟨pfe, pfi, ptg, ppe, ppl, pnow⟩ := penv
  obtain ⟨sfe, sfi, stg, sdl, sul, sb, sdm, sum, slat, snow⟩ := senv
  simp only at hp1 hp2 hp3 hs1 hs2 hs3
  subst hp1
  subst hp2
  subst hs1
  subst hs2
  cases ptg with
  | nil => exact absurd rfl hp3
  | cons pt prest =>
    cases stg with
    | nil => exact absurd rfl hs3
    | cons st srest => exact ⟨rfl, rfl, rfl⟩

/-- Witness for C9's amended theorem at concrete inputs. -/
theorem lock_probe_discipline_witness :
    probeWhileLocked (pingTestTrace envPingOk) 0 = true ∧
    probeWhileLocked pageDataTrace 0 = false := by
  have h := lock_probe_discipline envPingOk envSpeedOk rfl rfl (by decide)
    rfl rfl (by decide)
  exact ⟨h.1, h.2.2⟩

end Yanm
